import Mathlib

/-
  Verification development for the HabitPulse habit tracker.

  Shallow embedding of the core data model (src/types.ts, given as
  src/unnamed/part_004), the log mutation engine (App.tsx, given as
  src/unnamed/part_001), the analytics engine (src/components/StatsBanner.tsx),
  the heatmap windowing (src/components/Heatmap.tsx and src/unnamed/part_002),
  the storage adapter (src/hooks/useLocalStorage.ts, given as
  src/unnamed/part_000) and the import path (src/components/SettingsView.tsx).

  Modelling conventions:
  - Calendar days are integers (day numbers). The JS code keys logs by the
    string format(date, yyyy-MM-dd); formatting is a bijection between local
    calendar days and those strings, so an Int here stands for such a key.
    Day number 0 is chosen to be a Sunday, so the JS Date.getDay weekday of
    day d is d mod 7 (0 = Sunday .. 6 = Saturday), matching the convention
    of Date.prototype.getDay.
  - ISO timestamps are integers (instants); only equality matters.
  - A JS object used as a string-keyed map (habit.logs) is an association
    list in key insertion order: assignment to an existing key updates the
    value in place, assignment to a fresh key appends, delete removes the
    pair, spread copies the list. That is exactly the enumeration-order
    semantics of JS objects with non-index string keys.
  - Absent optional JS properties are none; note truthiness (if (log.note))
    is: present and a nonempty string.
-/

namespace HabitPulse

/-- DailyLog from src/unnamed/part_004 lines 1 to 8. The date field is a
calendar day number (day 0 a Sunday), standing for a yyyy-MM-dd key. -/
structure DailyLog where
  date : Int
  completed : Bool
  value : Option Int := none
  note : Option String := none
  rating : Option Nat := none
  timestamp : Option Int := none
deriving Repr, DecidableEq

/-- Habit from src/unnamed/part_004 lines 10 to 18. logs is a JS object keyed
by day, modelled as an association list in insertion order. -/
structure Habit where
  id : String
  title : String
  color : String
  createdAt : Int
  logs : List (Int × DailyLog)
  archived : Bool
deriving Repr, DecidableEq

inductive Theme where
  | light | dark | system
deriving Repr, DecidableEq

inductive Language where
  | en | zh
deriving Repr, DecidableEq

inductive WeekStart where
  | sunday | monday
deriving Repr, DecidableEq

/-- Settings from src/unnamed/part_004 lines 25 to 34. -/
structure Settings where
  theme : Theme
  userName : String
  language : Language
  weekStart : WeekStart
  splitMonths : Option Bool := none
deriving Repr, DecidableEq

/-- AppData from src/unnamed/part_004 lines 25 to 34. -/
structure AppData where
  habits : List Habit
  settings : Settings
deriving Repr, DecidableEq

/-- JS truthiness of an optional note property: present and nonempty. -/
def noteTruthy : Option String → Bool
  | none => false
  | some s => s != ""

/-- Reading h.logs[d]: the value at key d, if present. -/
def lookupLog (logs : List (Int × DailyLog)) (d : Int) : Option DailyLog :=
  (logs.find? (fun p => p.1 == d)).map (fun p => p.2)

/-- Whether key d is present in the logs object. -/
def hasKey (logs : List (Int × DailyLog)) (d : Int) : Bool :=
  logs.any (fun p => p.1 == d)

/-- JS assignment logs[d] = v: update in place if the key exists (keeping its
enumeration position), otherwise append the new key at the end. -/
def setLog (logs : List (Int × DailyLog)) (d : Int) (v : DailyLog) :
    List (Int × DailyLog) :=
  if hasKey logs d then logs.map (fun p => if p.1 == d then (d, v) else p)
  else logs ++ [(d, v)]

/-- JS delete logs[d]: remove the pair with key d, keeping the others. -/
def eraseLog (logs : List (Int × DailyLog)) (d : Int) : List (Int × DailyLog) :=
  logs.filter (fun p => p.1 != d)

/-- Body of toggleToday for the matching habit, from src/unnamed/part_001
lines 229 to 251. isCompleted is the truthiness of logs[todayKey]?.completed;
the un-check branch keeps the entry with completed = false when the note is
truthy and deletes it otherwise; the check branch spreads the existing entry
(if any) and overrides date, completed and timestamp. -/
def toggleHabitLogs (logs : List (Int × DailyLog)) (todayKey : Int)
    (nowIso : Int) : List (Int × DailyLog) :=
  let isCompleted : Bool :=
    match lookupLog logs todayKey with
    | some l => l.completed
    | none => false
  if isCompleted then
    match lookupLog logs todayKey with
    | some l =>
      if noteTruthy l.note then
        setLog logs todayKey { l with completed := false }
      else
        eraseLog logs todayKey
    | none => logs
  else
    match lookupLog logs todayKey with
    | some l =>
      setLog logs todayKey
        { l with date := todayKey, completed := true, timestamp := some nowIso }
    | none =>
      setLog logs todayKey
        { date := todayKey, completed := true, timestamp := some nowIso }

/-- toggleToday from src/unnamed/part_001 lines 221 to 255 (value-level
result of the state update). -/
def toggleToday (data : AppData) (habitId : String) (todayKey : Int)
    (nowIso : Int) : AppData :=
  { data with
    habits := data.habits.map (fun h =>
      if h.id == habitId then
        { h with logs := toggleHabitLogs h.logs todayKey nowIso }
      else h) }

/-- saveLogDetails from src/unnamed/part_001 lines 257 to 284: create or
update the log at dateKey, setting note and rating from the form, forcing
completed (existingLog.completed || true) and keeping an existing timestamp. -/
def saveLogDetails (data : AppData) (habitId : String) (dateKey : Int)
    (note : String) (rating : Nat) (nowIso : Int) : AppData :=
  { data with
    habits := data.habits.map (fun h =>
      if h.id == habitId then
        let existingLog : DailyLog :=
          (lookupLog h.logs dateKey).getD { date := dateKey, completed := false }
        let newLog : DailyLog :=
          { existingLog with
            note := some note
            rating := some rating
            completed := (existingLog.completed || true)
            timestamp := some ((existingLog.timestamp).getD nowIso) }
        { h with logs := setLog h.logs dateKey newLog }
      else h) }

/-- deleteLog from src/unnamed/part_001 lines 286 to 301: remove the entry at
dateKey unconditionally. -/
def deleteLog (data : AppData) (habitId : String) (dateKey : Int) : AppData :=
  { data with
    habits := data.habits.map (fun h =>
      if h.id == habitId then { h with logs := eraseLog h.logs dateKey }
      else h) }

/-- Whitespace stripped by String.prototype.trim (the common subset:
space, tab, line feed, carriage return, vertical tab, form feed). -/
def isTrimWs (c : Char) : Bool :=
  c == ' ' || c == '\t' || c == '\n' || c == '\x0d' || c == '\x0b' || c == '\x0c'

/-- The String.prototype.trim builtin: drop leading and trailing
whitespace. -/
def jsTrim (s : String) : String :=
  String.mk (((s.toList.dropWhile isTrimWs).reverse.dropWhile isTrimWs).reverse)

/-- saveHabit from src/unnamed/part_001 lines 182 to 211. A trimmed-empty
title returns before any state change. editingId is some id when the modal
edits an existing habit, none when it creates a new one. -/
def saveHabit (data : AppData) (editingId : Option String)
    (title color : String) (newId : String) (nowIso : Int) : AppData :=
  if jsTrim title = "" then data
  else
    match editingId with
    | some eid =>
      { data with
        habits := data.habits.map (fun h =>
          if h.id == eid then { h with title := title, color := color }
          else h) }
    | none =>
      { data with
        habits := data.habits ++
          [{ id := newId, title := title, color := color, createdAt := nowIso,
             logs := [], archived := false }] }

/-- deleteHabit from src/unnamed/part_001 lines 213 to 219. -/
def deleteHabit (data : AppData) (id : String) : AppData :=
  { data with habits := data.habits.filter (fun h => h.id != id) }

/-! Analytics engine, from src/components/StatsBanner.tsx lines 15 to 80. -/

/-- Result of the stats useMemo in StatsBanner. -/
structure Stats where
  completedToday : Nat
  completionRate : Nat
  streak : Nat
deriving Repr, DecidableEq

/-- totalHabits from StatsBanner.tsx line 17: count of non-archived habits. -/
def totalHabits (habits : List Habit) : Nat :=
  (habits.filter (fun h => !h.archived)).length

/-- Truthiness of habit.logs[todayKey]?.completed (StatsBanner.tsx line 28). -/
def habitCompletedAt (h : Habit) (todayKey : Int) : Bool :=
  match lookupLog h.logs todayKey with
  | some l => l.completed
  | none => false

/-- completedToday from StatsBanner.tsx lines 27 to 29: a reduce over ALL
habits of data.habits, adding 1 when the log at todayKey is completed. -/
def completedTodayCount (habits : List Habit) (todayKey : Int) : Nat :=
  habits.foldl (fun acc h => acc + (if habitCompletedAt h todayKey then 1 else 0)) 0

/-- Math.round((c / t) * 100) for nonnegative integers c and t > 0, as exact
round-half-up on rationals: floor(100 c / t + 1/2) = (200 c + t) / (2 t)
in integer division. -/
def jsRound100 (c t : Nat) : Nat :=
  (200 * c + t) / (2 * t)

/-- The activity dates gathered by StatsBanner.tsx lines 37 to 44: for each
habit of data.habits (archived ones included), the date field of every log
value with completed = true. The JS code inserts them into a Set; only
membership in this list is ever used. -/
def activityDates (habits : List Habit) : List Int :=
  habits.foldl
    (fun acc h =>
      acc ++ (h.logs.filter (fun p => p.2.completed)).map (fun p => p.2.date))
    []

/-- The backward-counting while loop of StatsBanner.tsx lines 68 to 76:
starting at day d, count consecutive days present in the activity set,
stopping at the first missing day. The loop terminates because the run of
consecutive present days is finite; fueled with any bound strictly larger
than the run length it computes exactly the count of the JS loop. -/
def streakWalk (act : List Int) : Nat → Int → Nat
  | 0, _ => 0
  | fuel + 1, d => if d ∈ act then streakWalk act fuel (d - 1) + 1 else 0

/-- The streak computation of StatsBanner.tsx lines 46 to 77: the cursor
starts at today when today is active, else at yesterday; if neither is
active the streak is 0, otherwise the walk counts backward. The fuel
(length of the gathered date list plus one) strictly exceeds any possible
run length, so the walk equals the JS while loop. -/
def streakCalc (habits : List Habit) (todayKey : Int) : Nat :=
  let act := activityDates habits
  let isTodayDone : Bool := todayKey ∈ act
  let checkDate : Int := if isTodayDone then todayKey else todayKey - 1
  if !isTodayDone && !(decide (checkDate ∈ act)) then 0
  else streakWalk act (act.length + 1) checkDate

/-- The stats useMemo of StatsBanner.tsx lines 23 to 80: all three outputs
are 0 when totalHabits is 0; otherwise completedToday counts over all habits,
completionRate = Math.round(completedToday / totalHabits * 100), and streak
is the global walk. -/
def statsCalc (habits : List Habit) (todayKey : Int) : Stats :=
  if totalHabits habits = 0 then
    { completedToday := 0, completionRate := 0, streak := 0 }
  else
    let completedToday := completedTodayCount habits todayKey
    { completedToday := completedToday
      completionRate := jsRound100 completedToday (totalHabits habits)
      streak := streakCalc habits todayKey }

/-! Spec-side analytics definitions (for the refinement claims C2 and C3),
written from the words of spec.md section 4.3, to be compared with the
definitions above taken from StatsBanner.tsx. -/

/-- Formalization of the words of spec.md section 4.3: the number of habits
whose log at today has completed = true, restricted to non-archived habits
(the section computes over non-archived habits only). -/
def specCompletedToday (habits : List Habit) (todayKey : Int) : Nat :=
  (habits.filter (fun h => !h.archived)).countP (fun h => habitCompletedAt h todayKey)

/-- The number of habits, archived included, completed at today; the count
the code actually produces (amended C2). -/
def allCompletedToday (habits : List Habit) (todayKey : Int) : Nat :=
  habits.countP (fun h => habitCompletedAt h todayKey)

/-- Formalization of the words of spec.md section 4.3: the set of all
day-identifiers across all habits where completed = true. -/
def specActivitySet (habits : List Habit) : Finset Int :=
  habits.foldr
    (fun h acc =>
      ((h.logs.filter (fun p => p.2.completed)).map (fun p => p.2.date)).toFinset ∪ acc)
    ∅

/-- The backward walk of spec.md section 4.3 on the activity set: count
consecutive days present in the set, stopping at the first missing day
(inclusive counting, exclusive stop); fueled with a bound strictly above
any possible run length (the cardinality of the set plus one). -/
def specWalk (S : Finset Int) : Nat → Int → Nat
  | 0, _ => 0
  | fuel + 1, d => if d ∈ S then specWalk S fuel (d - 1) + 1 else 0

/-- The streak algorithm exactly as worded in spec.md section 4.3 and in
claim C3: cursor = today if today is in the set, else yesterday; if neither
is in the set, streak = 0; otherwise walk backward. -/
def specStreak (habits : List Habit) (today : Int) : Nat :=
  let S := specActivitySet habits
  if today ∈ S then specWalk S (S.card + 1) today
  else if (today - 1) ∈ S then specWalk S (S.card + 1) (today - 1)
  else 0

/-! Heatmap windowing, from src/components/Heatmap.tsx lines 30 to 79 (the
split-months variant src/unnamed/part_002 lines 31 to 63 computes the same
day range). -/

/-- weekStartsOn from Heatmap.tsx line 43: 0 = Sunday, 1 = Monday. -/
def weekStartsOn : WeekStart → Int
  | .monday => 1
  | .sunday => 0

/-- JS Date.prototype.getDay: weekday 0 = Sunday .. 6 = Saturday. With day 0
a Sunday this is the day number modulo 7. -/
def getDay (d : Int) : Int := d % 7

/-- The snap distance of Heatmap.tsx line 48:
(currentDay < weekStartsOn ? 7 : 0) + currentDay - weekStartsOn. -/
def snapDiff (s cur : Int) : Int :=
  (if cur < s then 7 else 0) + cur - s

/-- adjustedStartDate from Heatmap.tsx lines 36 to 54: startDate is
today - 364 days, snapped backward to the start of its week. -/
def adjustedStartDate (today : Int) (ws : WeekStart) : Int :=
  let startDate := today - 364
  startDate - snapDiff (weekStartsOn ws) (getDay startDate)

/-- The day sequence of Heatmap.tsx lines 57 to 62:
eachDayOfInterval(adjustedStartDate, endDate), every day of the closed
interval in calendar order. -/
def heatmapDays (today : Int) (ws : WeekStart) : List Int :=
  let a := adjustedStartDate today ws
  (List.range (today - a + 1).toNat).map (fun (i : Nat) => a + (i : Int))

/-- One step of the week grouping of Heatmap.tsx lines 69 to 75: push the
day onto the current row; once the row holds 7 days move it to the grid. -/
def weekStep (st : List (List Int) × List Int) (day : Int) :
    List (List Int) × List Int :=
  let cw := st.2 ++ [day]
  if cw.length = 7 then (st.1 ++ [cw], []) else (st.1, cw)

/-- The week grouping of Heatmap.tsx lines 65 to 79 (non-split variant):
push a row every 7 consecutive days, then push the final partial row if any. -/
def weeksFold (days : List Int) : List (List Int) :=
  let st := days.foldl weekStep ([], [])
  if st.2.isEmpty then st.1 else st.1 ++ [st.2]

/-! Persistent store adapter, from src/unnamed/part_000 (useLocalStorage). -/

/-- setValue from src/unnamed/part_000 lines 21 to 35, as the transition it
applies to (durable cell, in-memory value). The updater computes the value
to store from the current value, then runs
try \x7b localStorage.setItem(key, JSON.stringify(v)); return v \x7d
catch \x7b console.warn(...); return current \x7d.
writeOk models whether the store write succeeded; serialization is the
identity (the cell holds the last successfully written value). On failure the
updater returns current, so the catch branch yields (cell, current). -/
def setValue (cell : Option AppData) (current valueToStore : AppData)
    (writeOk : Bool) : Option AppData × AppData :=
  if writeOk then (some valueToStore, valueToStore)
  else (cell, current)

/-- What spec.md section 4.1 says write does on failure: the in-memory value
is still updated, only durability is lost. Modelled from the spec for
comparison with setValue. -/
def specSetValue (cell : Option AppData) (_current valueToStore : AppData)
    (writeOk : Bool) : Option AppData × AppData :=
  if writeOk then (some valueToStore, valueToStore)
  else (cell, valueToStore)

/-! Import path, from src/components/SettingsView.tsx lines 97 to 120. The
handler receives the file content as a string and runs JSON.parse on it; the
data type and parser below model the ECMAScript JSON.parse builtin (strict
JSON grammar; duplicate object keys keep the last occurrence). -/

/-- A parsed JSON value. Numbers keep their lexeme; only truthiness of a
number is ever inspected downstream. -/
inductive Js where
  | null
  | jsbool (b : Bool)
  | num (raw : String)
  | str (s : String)
  | arr (elems : List Js)
  | obj (fields : List (String × Js))
deriving Repr, Inhabited

/-- JSON whitespace. -/
def isJsonWs (c : Char) : Bool :=
  c == ' ' || c == '\t' || c == '\n' || c == '\r'

def skipWs : List Char → List Char
  | [] => []
  | c :: cs => if isJsonWs c then skipWs cs else c :: cs

/-- Value of a hex digit, or 16 when the character is not a hex digit. -/
def hexVal (c : Char) : Nat :=
  if 48 ≤ c.toNat ∧ c.toNat ≤ 57 then c.toNat - 48
  else if 97 ≤ c.toNat ∧ c.toNat ≤ 102 then c.toNat - 87
  else if 65 ≤ c.toNat ∧ c.toNat ≤ 70 then c.toNat - 55
  else 16

/-- The nine single-character JSON escapes. -/
def escChar : Char → Option Char
  | '"' => some '"'
  | '\\' => some '\\'
  | '/' => some '/'
  | 'b' => some (Char.ofNat 8)
  | 'f' => some (Char.ofNat 12)
  | 'n' => some '\n'
  | 'r' => some (Char.ofNat 13)
  | 't' => some '\t'
  | _ => none

/-- Remainder of a JSON string literal after the opening quote: the decoded
characters and the input after the closing quote. Strict JSON: raw control
characters are rejected, and a unicode escape takes four hex digits. -/
def parseStringRest : List Char → Option (List Char × List Char)
  | [] => none
  | '"' :: cs => some ([], cs)
  | '\\' :: 'u' :: h1 :: h2 :: h3 :: h4 :: rest =>
    if hexVal h1 < 16 ∧ hexVal h2 < 16 ∧ hexVal h3 < 16 ∧ hexVal h4 < 16 then
      (parseStringRest rest).map (fun r =>
        (Char.ofNat (((hexVal h1 * 16 + hexVal h2) * 16 + hexVal h3) * 16 + hexVal h4)
           :: r.1, r.2))
    else none
  | '\\' :: e :: cs =>
    match escChar e with
    | some ch => (parseStringRest cs).map (fun r => (ch :: r.1, r.2))
    | none => none
  | c :: cs =>
    if c.toNat < 32 then none
    else (parseStringRest cs).map (fun r => (c :: r.1, r.2))

/-- Longest prefix of decimal digits. -/
def digitSpan : List Char → (List Char × List Char)
  | [] => ([], [])
  | c :: cs =>
    if c.isDigit then
      let r := digitSpan cs
      (c :: r.1, r.2)
    else ([], c :: cs)

/-- Strict JSON integer part: 0, or a nonzero digit then digits. -/
def parseIntPart : List Char → Option (List Char × List Char)
  | [] => none
  | c :: rest =>
    if c == '0' then some ([c], rest)
    else if c.isDigit then
      let r := digitSpan rest
      some (c :: r.1, r.2)
    else none

/-- Optional strict JSON fraction part: a dot then at least one digit. -/
def parseFracPart (cs : List Char) : Option (List Char × List Char) :=
  match cs with
  | '.' :: rest =>
    let r := digitSpan rest
    if r.1.isEmpty then none else some ('.' :: r.1, r.2)
  | _ => some ([], cs)

/-- Optional strict JSON exponent part: e or E, optional sign, digits. -/
def parseExpPart (cs : List Char) : Option (List Char × List Char) :=
  match cs with
  | [] => some ([], [])
  | e :: rest =>
    if e == 'e' || e == 'E' then
      match rest with
      | [] => none
      | s :: rest2 =>
        if s == '+' || s == '-' then
          let r := digitSpan rest2
          if r.1.isEmpty then none else some (e :: s :: r.1, r.2)
        else
          let r := digitSpan rest
          if r.1.isEmpty then none else some (e :: r.1, r.2)
    else some ([], e :: rest)

/-- A JSON number lexeme (after an optional already-consumed minus sign). -/
def parseNumber (neg : Bool) (cs : List Char) : Option (String × List Char) := do
  let (ip, r1) ← parseIntPart cs
  let (fp, r2) ← parseFracPart r1
  let (ep, r3) ← parseExpPart r2
  some (String.mk ((if neg then ['-'] else []) ++ ip ++ fp ++ ep), r3)

mutual

/-- One JSON value, fueled (the fuel strictly exceeds any possible nesting
depth when jsonParse supplies it, so it never runs out on real input). -/
def parseValue : Nat → List Char → Option (Js × List Char)
  | 0, _ => none
  | fuel + 1, cs =>
    match skipWs cs with
    | 'n' :: 'u' :: 'l' :: 'l' :: rest => some (.null, rest)
    | 't' :: 'r' :: 'u' :: 'e' :: rest => some (.jsbool true, rest)
    | 'f' :: 'a' :: 'l' :: 's' :: 'e' :: rest => some (.jsbool false, rest)
    | '"' :: rest =>
      (parseStringRest rest).map (fun r => (.str (String.mk r.1), r.2))
    | '[' :: rest =>
      (match skipWs rest with
       | ']' :: rest2 => some (.arr [], rest2)
       | _ => (parseItems fuel (skipWs rest)).map (fun r => (.arr r.1, r.2)))
    | '\x7b' :: rest =>
      (match skipWs rest with
       | '\x7d' :: rest2 => some (.obj [], rest2)
       | _ => (parseFields fuel (skipWs rest)).map (fun r => (.obj r.1, r.2)))
    | '-' :: rest => (parseNumber true rest).map (fun r => (.num r.1, r.2))
    | c :: rest =>
      if c.isDigit then
        (parseNumber false (c :: rest)).map (fun r => (.num r.1, r.2))
      else none
    | [] => none

/-- Comma-separated values then a closing bracket. -/
def parseItems : Nat → List Char → Option (List Js × List Char)
  | 0, _ => none
  | fuel + 1, cs => do
    let (v, r1) ← parseValue fuel cs
    match skipWs r1 with
    | ',' :: r2 => (parseItems fuel r2).map (fun r => (v :: r.1, r.2))
    | ']' :: r2 => some ([v], r2)
    | _ => none

/-- Comma-separated string-keyed members then a closing brace. -/
def parseFields : Nat → List Char → Option (List (String × Js) × List Char)
  | 0, _ => none
  | fuel + 1, cs =>
    match skipWs cs with
    | '"' :: rest => do
      let (k, r1) ← parseStringRest rest
      match skipWs r1 with
      | ':' :: r2 => do
        let (v, r3) ← parseValue fuel r2
        match skipWs r3 with
        | ',' :: r4 => (parseFields fuel r4).map (fun r => ((String.mk k, v) :: r.1, r.2))
        | '\x7d' :: r4 => some ([(String.mk k, v)], r4)
        | _ => none
      | _ => none
    | _ => none

end

/-- JSON.parse: one value, surrounding whitespace allowed, no trailing
content; none models the SyntaxError exception. -/
def jsonParse (s : String) : Option Js :=
  match parseValue (2 * s.length + 2) s.toList with
  | some (v, rest) => if (skipWs rest).isEmpty then some v else none
  | none => none

/-- JS truthiness of a parsed value (the if (parsed && ...) test): null and
false are falsy, a number exactly when it denotes zero (a strict JSON number
lexeme denotes zero exactly when its mantissa has no nonzero digit), a string
when empty; arrays and objects are always truthy. -/
def jsTruthy : Js → Bool
  | .null => false
  | .jsbool b => b
  | .num raw =>
    (raw.toList.takeWhile (fun c => c != 'e' && c != 'E')).any
      (fun c => decide (49 ≤ c.toNat ∧ c.toNat ≤ 57))
  | .str s => s != ""
  | .arr _ => true
  | .obj _ => true

/-- Property access parsed.habits: on an object the value at the key (for a
duplicate key JSON.parse keeps the last occurrence); undefined otherwise. -/
def getField (v : Js) (name : String) : Option Js :=
  match v with
  | .obj fields =>
    ((fields.filter (fun p => p.1 == name)).getLast?).map (fun p => p.2)
  | _ => none

/-- Array.isArray(parsed.habits). -/
def habitsIsArray (v : Js) : Bool :=
  match getField v "habits" with
  | some (.arr _) => true
  | _ => false

inductive ImportStatus where
  | idle | success | error
deriving Repr, DecidableEq

/-- handleImportFile from SettingsView.tsx lines 97 to 120 as a function of
the loaded file content. The empty content fails the truthiness guard
if (event.target?.result) and the handler does nothing at all; otherwise
JSON.parse runs inside the try, and its value is imported when it is truthy
with an array habits property, while a parse exception or a failed
validation lands in the catch with an error status. The first component is
some v when onImport(v) replaces the whole AppData, none when the prior
AppData is retained. -/
def handleImportFile (content : String) : Option Js × ImportStatus :=
  if content = "" then (none, .idle)
  else
    match jsonParse content with
    | some parsed =>
      if jsTruthy parsed && habitsIsArray parsed then (some parsed, .success)
      else (none, .error)
    | none => (none, .error)

/-! Reference-level model of toggleToday, for claim C1. JS objects are
reference values: the shallow copy newLogs = spread of h.logs copies
key-to-reference entries only, so the DailyLog objects themselves stay
shared with the previous state. The heap holds the DailyLog objects and the
log maps hold heap addresses. -/

/-- Heap of DailyLog objects; an address is an index into it. -/
abbrev LogHeap := List DailyLog

/-- A habit whose log map holds heap addresses instead of inline values. -/
structure HabitRef where
  id : String
  title : String
  color : String
  createdAt : Int
  logs : List (Int × Nat)
  archived : Bool
deriving Repr, DecidableEq

def heapGet (hp : LogHeap) (r : Nat) : DailyLog :=
  hp.getD r { date := 0, completed := false }

def heapSet (hp : LogHeap) (r : Nat) (v : DailyLog) : LogHeap :=
  hp.set r v

def lookupRef (logs : List (Int × Nat)) (d : Int) : Option Nat :=
  (logs.find? (fun p => p.1 == d)).map (fun p => p.2)

def setRef (logs : List (Int × Nat)) (d : Int) (r : Nat) : List (Int × Nat) :=
  if logs.any (fun p => p.1 == d) then
    logs.map (fun p => if p.1 == d then (d, r) else p)
  else logs ++ [(d, r)]

def eraseRef (logs : List (Int × Nat)) (d : Int) : List (Int × Nat) :=
  logs.filter (fun p => p.1 != d)

/-- toggleToday at the reference level (src/unnamed/part_001 lines 221 to
255). For the matching habit: the un-check branch with a truthy note runs
newLogs[todayKey].completed = false, a write through the address shared with
the previous state (heapSet); the toggle-on branch builds a fresh object
(allocation at the end of the heap) and assigns its address under the key;
the delete branch drops the key. Returns the heap after the call and the new
habit list. -/
def toggleTodayRef (hp0 : LogHeap) (habits : List HabitRef) (habitId : String)
    (todayKey : Int) (nowIso : Int) : LogHeap × List HabitRef :=
  habits.foldl
    (fun st h =>
      let hp := st.1
      if h.id == habitId then
        match lookupRef h.logs todayKey with
        | some r =>
          if (heapGet hp r).completed then
            if noteTruthy (heapGet hp r).note then
              (heapSet hp r { (heapGet hp r) with completed := false },
               st.2 ++ [h])
            else
              (hp, st.2 ++ [{ h with logs := eraseRef h.logs todayKey }])
          else
            let fresh : DailyLog :=
              { (heapGet hp r) with
                date := todayKey, completed := true, timestamp := some nowIso }
            (hp ++ [fresh],
             st.2 ++ [{ h with logs := setRef h.logs todayKey hp.length }])
        | none =>
          let fresh : DailyLog :=
            { date := todayKey, completed := true, timestamp := some nowIso }
          (hp ++ [fresh],
           st.2 ++ [{ h with logs := setRef h.logs todayKey hp.length }])
      else (hp, st.2 ++ [h]))
    (hp0, [])

/-- Dereference a habit: the value observed for it under a given heap. -/
def viewHabit (hp : LogHeap) (h : HabitRef) : Habit :=
  { id := h.id, title := h.title, color := h.color, createdAt := h.createdAt,
    logs := h.logs.map (fun p => (p.1, heapGet hp p.2)),
    archived := h.archived }

/-! Concrete states used by counterexamples and witnesses. -/

/-- A concrete settings value. -/
def settings0 : Settings :=
  { theme := .system, userName := "User", language := .en,
    weekStart := .sunday }

/-- A habit with given id, logs and archived flag. -/
def habitOf (id : String) (logs : List (Int × DailyLog)) (archived : Bool) :
    Habit :=
  { id := id, title := "t", color := "#10b981", createdAt := 0, logs := logs,
    archived := archived }

/-- An AppData with the given habits. -/
def dataOf (hs : List Habit) : AppData :=
  { habits := hs, settings := settings0 }

/-- A non-archived habit completed at day 0. -/
def hDone : Habit :=
  habitOf "h1" [(0, { date := 0, completed := true, timestamp := some 1 })] false

/-- A non-archived habit with no logs. -/
def hIdle : Habit := habitOf "h2" [] false

/-- An archived habit completed at day 0. -/
def hArchDone : Habit :=
  habitOf "h3" [(0, { date := 0, completed := true, timestamp := some 1 })] true

/-- A non-archived habit completed on days 4 and 5. -/
def hTwoDays : Habit :=
  habitOf "h4"
    [(4, { date := 4, completed := true, timestamp := some 1 }),
     (5, { date := 5, completed := true, timestamp := some 2 })] false

/-- A non-archived habit with an un-checked but annotated day (satisfies the
log invariant: completed = false only together with a nonempty note). -/
def hNoted : Habit :=
  habitOf "h5" [(2, { date := 2, completed := false, note := some "memo" })] false

/-- State for the C9 counterexample: the log at day 0 exists, is completed,
has no note, and carries timestamp 5. -/
def c9data : AppData :=
  dataOf [habitOf "a"
    [(0, { date := 0, completed := true, timestamp := some 5 })] false]

/-- Heap for the C1 run: one DailyLog object, completed with a note. -/
def c1Heap : LogHeap :=
  [{ date := 0, completed := true, note := some "x" }]

/-- Habit for the C1 run: its log map binds day 0 to address 0. -/
def c1Habit : HabitRef :=
  { id := "a", title := "t", color := "c", createdAt := 0, logs := [(0, 0)],
    archived := false }

/-! The completed/note consistency invariant of spec.md section 3 (claim C6):
no log entry may have completed = false together with an empty or absent
note. -/

/-- A single entry respects the invariant. -/
def logOk (l : DailyLog) : Prop :=
  l.completed = false → noteTruthy l.note = true

instance (l : DailyLog) : Decidable (logOk l) := by
  unfold logOk; infer_instance

/-- Every entry of every habit of the state respects the invariant. -/
def dataOk (d : AppData) : Prop :=
  ∀ hb ∈ d.habits, ∀ p ∈ hb.logs, logOk p.2

instance (d : AppData) : Decidable (dataOk d) := by
  unfold dataOk; infer_instance

/-! Helper lemmas about the JS object-map operations. -/

theorem lookupLog_eq_none_iff (logs : List (Int × DailyLog)) (d : Int) :
    lookupLog logs d = none ↔ ∀ p ∈ logs, p.1 ≠ d := by
  simp [lookupLog, List.find?_eq_none]

theorem lookupLog_append_right (logs : List (Int × DailyLog)) (d : Int)
    (v : DailyLog) (h : ∀ p ∈ logs, p.1 ≠ d) :
    lookupLog (logs ++ [(d, v)]) d = some v := by
  induction logs with
  | nil => simp [lookupLog]
  | cons q qs ih =>
    have hq : (q.1 == d) = false := by
      simpa using h q (by simp)
    have ih' := ih (fun p hp => h p (by simp [hp]))
    simpa [lookupLog, List.find?_cons, hq] using ih'

theorem eraseLog_append_right (logs : List (Int × DailyLog)) (d : Int)
    (v : DailyLog) (h : ∀ p ∈ logs, p.1 ≠ d) :
    eraseLog (logs ++ [(d, v)]) d = logs := by
  unfold eraseLog
  rw [List.filter_append]
  have h1 : logs.filter (fun p => p.1 != d) = logs :=
    List.filter_eq_self.mpr (fun p hp => by simpa using h p hp)
  have h2 : [(d, v)].filter (fun p : Int × DailyLog => p.1 != d) = [] := by simp
  rw [h1, h2, List.append_nil]

theorem setLog_of_absent (logs : List (Int × DailyLog)) (d : Int) (v : DailyLog)
    (h : ∀ p ∈ logs, p.1 ≠ d) :
    setLog logs d v = logs ++ [(d, v)] := by
  have hk : hasKey logs d = false := by
    simp [hasKey]
    intro a b hab
    simpa using h (a, b) hab
  simp [setLog, hk]

theorem mem_of_mem_setLog (logs : List (Int × DailyLog)) (d : Int)
    (v : DailyLog) (p : Int × DailyLog) (h : p ∈ setLog logs d v) :
    p = (d, v) ∨ p ∈ logs := by
  unfold setLog at h
  by_cases hk : hasKey logs d
  · rw [if_pos hk] at h
    obtain ⟨q, hq, hpq⟩ := List.mem_map.mp h
    by_cases hqd : (q.1 == d) = true
    · left; simp [hqd] at hpq; exact hpq.symm
    · right; simp [hqd] at hpq; exact hpq ▸ hq
  · rw [if_neg hk] at h
    rcases List.mem_append.mp h with h1 | h1
    · right; exact h1
    · left; simpa using h1

theorem mem_of_mem_eraseLog (logs : List (Int × DailyLog)) (d : Int)
    (p : Int × DailyLog) (h : p ∈ eraseLog logs d) : p ∈ logs :=
  (List.mem_filter.mp h).1

/-- Toggling a day that has no entry creates the completed entry with the
day as date and now as timestamp, and toggling again deletes it, restoring
the log collection exactly. -/
theorem toggleHabitLogs_roundtrip (logs : List (Int × DailyLog)) (k : Int)
    (now1 now2 : Int) (h : ∀ p ∈ logs, p.1 ≠ k) :
    toggleHabitLogs (toggleHabitLogs logs k now1) k now2 = logs := by
  have hnone : lookupLog logs k = none := (lookupLog_eq_none_iff logs k).mpr h
  have h1 : toggleHabitLogs logs k now1 =
      logs ++ [(k, { date := k, completed := true, timestamp := some now1 })] := by
    unfold toggleHabitLogs
    rw [hnone]
    simp only []
    exact setLog_of_absent logs k _ h
  rw [h1]
  have hsome : lookupLog
      (logs ++ [(k, { date := k, completed := true, timestamp := some now1 })]) k =
      some { date := k, completed := true, timestamp := some now1 } :=
    lookupLog_append_right logs k _ h
  unfold toggleHabitLogs
  rw [hsome]
  simp only [noteTruthy]
  exact eraseLog_append_right logs k _ h

/-- Claim C9 (amended): for a day whose log entry is absent, toggling twice
restores the whole AppData exactly: absent, then present with completed =
true and a fresh timestamp, then absent again. -/
theorem toggle_twice_restores_data (data : AppData) (hid : String) (k : Int)
    (now1 now2 : Int)
    (h : ∀ hb ∈ data.habits, hb.id = hid → lookupLog hb.logs k = none) :
    toggleToday (toggleToday data hid k now1) hid k now2 = data := by
  unfold toggleToday
  show { data with
    habits := (data.habits.map _).map _ } = data
  rw [List.map_map]
  have hfun : ∀ hb ∈ data.habits,
      ((fun h2 =>
          if h2.id == hid then
            { h2 with logs := toggleHabitLogs h2.logs k now2 }
          else h2) ∘
        (fun h1 =>
          if h1.id == hid then
            { h1 with logs := toggleHabitLogs h1.logs k now1 }
          else h1)) hb = hb := by
    intro hb hmem
    by_cases hbid : hb.id = hid
    · have habs : ∀ p ∈ hb.logs, p.1 ≠ k := by
        intro p hp
        have := (lookupLog_eq_none_iff hb.logs k).mp (h hb hmem hbid)
        exact this p hp
      have hbeq : (hb.id == hid) = true := beq_iff_eq.mpr hbid
      simp only [Function.comp_apply, hbeq, if_true]
      rw [toggleHabitLogs_roundtrip hb.logs k now1 now2 habs]
    · have hbne : (hb.id == hid) = false := beq_eq_false_iff_ne.mpr hbid
      simp only [Function.comp_apply, hbne, Bool.false_eq_true, if_false]
  rw [List.map_congr_left hfun, List.map_id']

/-- Witness for C9 at a concrete state: the habit has no entry at day 9 and
two toggles restore the state exactly. -/
theorem toggle_twice_restores_data_witness :
    (∀ hb ∈ (dataOf [hIdle]).habits, hb.id = "h2" → lookupLog hb.logs 9 = none) ∧
    toggleToday (toggleToday (dataOf [hIdle]) "h2" 9 77) "h2" 9 78 = dataOf [hIdle] :=
  ⟨by decide, toggle_twice_restores_data (dataOf [hIdle]) "h2" 9 77 78 (by decide)⟩

/-- Counterexample to C9 as stated: day 0 has an entry with NO note (the
claim covers days whose entry is absent or has no note), yet toggling twice
does not restore the prior state: the entry is deleted and recreated with
the new timestamp 7 in place of the stored timestamp 5. -/
theorem toggle_twice_no_note_not_restored :
    (∀ hb ∈ c9data.habits, ∀ p ∈ hb.logs, p.2.note = none) ∧
    toggleToday (toggleToday c9data "a" 0 7) "a" 0 7 ≠ c9data := by
  constructor
  · decide
  · decide

/-- Claim C10: a save with a trimmed-empty title returns before any state
change, for edits just as for creation. -/
theorem saveHabit_empty_title_noop (data : AppData) (editingId : Option String)
    (title color newId : String) (nowIso : Int) (h : jsTrim title = "") :
    saveHabit data editingId title color newId nowIso = data := by
  unfold saveHabit
  rw [if_pos h]

/-- Witness for C10 at a concrete edited habit: a whitespace title leaves
the state including the edited habit unchanged. -/
theorem saveHabit_empty_title_noop_witness :
    jsTrim " " = "" ∧
    saveHabit (dataOf [hDone]) (some "h1") " " "#3b82f6" "z" 9 = dataOf [hDone] :=
  ⟨by decide,
   saveHabit_empty_title_noop (dataOf [hDone]) (some "h1") " " "#3b82f6" "z" 9
     (by decide)⟩

/-- An entry written by the toggle-on branch satisfies the invariant: its
completed field is true. -/
theorem logOk_of_completed (l : DailyLog) (h : l.completed = true) : logOk l := by
  intro hfalse
  rw [h] at hfalse
  exact absurd hfalse (by simp)

/-- toggleHabitLogs preserves the per-habit invariant. -/
theorem toggleHabitLogs_preserves (logs : List (Int × DailyLog)) (k : Int)
    (nowIso : Int) (h : ∀ p ∈ logs, logOk p.2) :
    ∀ p ∈ toggleHabitLogs logs k nowIso, logOk p.2 := by
  intro p hp
  unfold toggleHabitLogs at hp
  rcases hl : lookupLog logs k with _ | l
  · rw [hl] at hp
    simp only [] at hp
    rcases mem_of_mem_setLog _ _ _ _ hp with h1 | h1
    · subst h1
      exact logOk_of_completed _ rfl
    · exact h p h1
  · rw [hl] at hp
    simp only [] at hp
    by_cases hc : l.completed = true
    · rw [hc] at hp
      simp only [if_true] at hp
      by_cases hn : noteTruthy l.note = true
      · rw [hn] at hp
        simp only [if_true] at hp
        rcases mem_of_mem_setLog _ _ _ _ hp with h1 | h1
        · subst h1
          intro _
          exact hn
        · exact h p h1
      · rw [Bool.not_eq_true] at hn
        rw [hn] at hp
        simp only [Bool.false_eq_true, if_false] at hp
        exact h p (mem_of_mem_eraseLog _ _ _ hp)
    · rw [Bool.not_eq_true] at hc
      rw [hc] at hp
      simp only [Bool.false_eq_true, if_false] at hp
      rcases mem_of_mem_setLog _ _ _ _ hp with h1 | h1
      · subst h1
        exact logOk_of_completed _ rfl
      · exact h p h1

/-- Claim C6: toggleToday, saveLogDetails and deleteLog all preserve the
invariant that no entry has completed = false and an empty or absent note. -/
theorem mutations_preserve_invariant (d : AppData) (hid : String) (day : Int)
    (note : String) (rating : Nat) (now1 now2 : Int) (h : dataOk d) :
    dataOk (toggleToday d hid day now1) ∧
    dataOk (saveLogDetails d hid day note rating now2) ∧
    dataOk (deleteLog d hid day) := by
  refine ⟨?_, ?_, ?_⟩
  · intro hb hmem p hp
    unfold toggleToday at hmem
    simp only [] at hmem
    obtain ⟨hb0, hmem0, rfl⟩ := List.mem_map.mp hmem
    by_cases hbid : (hb0.id == hid) = true
    · rw [hbid] at hp
      simp only [if_true] at hp
      exact toggleHabitLogs_preserves hb0.logs day now1 (h hb0 hmem0) p hp
    · rw [Bool.not_eq_true] at hbid
      rw [hbid] at hp
      simp only [Bool.false_eq_true, if_false] at hp
      exact h hb0 hmem0 p hp
  · intro hb hmem p hp
    unfold saveLogDetails at hmem
    simp only [] at hmem
    obtain ⟨hb0, hmem0, rfl⟩ := List.mem_map.mp hmem
    by_cases hbid : (hb0.id == hid) = true
    · rw [hbid] at hp
      simp only [if_true] at hp
      rcases mem_of_mem_setLog _ _ _ _ hp with h1 | h1
      · subst h1
        apply logOk_of_completed
        simp
      · exact h hb0 hmem0 p h1
    · rw [Bool.not_eq_true] at hbid
      rw [hbid] at hp
      simp only [Bool.false_eq_true, if_false] at hp
      exact h hb0 hmem0 p hp
  · intro hb hmem p hp
    unfold deleteLog at hmem
    simp only [] at hmem
    obtain ⟨hb0, hmem0, rfl⟩ := List.mem_map.mp hmem
    by_cases hbid : (hb0.id == hid) = true
    · rw [hbid] at hp
      simp only [if_true] at hp
      exact h hb0 hmem0 p (mem_of_mem_eraseLog _ _ _ hp)
    · rw [Bool.not_eq_true] at hbid
      rw [hbid] at hp
      simp only [Bool.false_eq_true, if_false] at hp
      exact h hb0 hmem0 p hp

/-- Witness for C6 at a concrete valid state (one habit completed at day 0,
one habit with a note-only entry): all three operations keep it valid. -/
theorem mutations_preserve_invariant_witness :
    dataOk (dataOf [hDone, hNoted]) ∧
    (dataOk (toggleToday (dataOf [hDone, hNoted]) "h5" 2 9) ∧
     dataOk (saveLogDetails (dataOf [hDone, hNoted]) "h5" 2 "m" 3 9) ∧
     dataOk (deleteLog (dataOf [hDone, hNoted]) "h5" 2)) :=
  ⟨by decide,
   mutations_preserve_invariant (dataOf [hDone, hNoted]) "h5" 2 "m" 3 9 9
     (by decide)⟩

/-! Analytics lemmas for claims C2, C3 and C5. -/

/-- The reduce of StatsBanner.tsx lines 27 to 29 counts the habits whose log
at todayKey is completed, over the whole habit list. -/
theorem completedTodayCount_eq_countP (habits : List Habit) (d : Int) :
    completedTodayCount habits d = habits.countP (fun h => habitCompletedAt h d) := by
  have gen : ∀ (l : List Habit) (n : Nat),
      l.foldl (fun acc h => acc + (if habitCompletedAt h d then 1 else 0)) n =
      n + l.countP (fun h => habitCompletedAt h d) := by
    intro l
    induction l with
    | nil => intro n; simp
    | cons a l ih =>
      intro n
      rw [List.foldl_cons, ih, List.countP_cons]
      by_cases hx : habitCompletedAt a d <;> simp [hx]
      all_goals omega
  simpa [completedTodayCount] using gen habits 0

/-- Claim C2 (amended): when at least one non-archived habit exists, the
completedToday output counts the habits whose log at today is completed over
ALL habits, archived ones included; archived habits are excluded only from
the totalHabits denominator. -/
theorem completedToday_counts_all_habits (habits : List Habit) (d : Int)
    (h : totalHabits habits ≠ 0) :
    (statsCalc habits d).completedToday = allCompletedToday habits d := by
  unfold statsCalc
  rw [if_neg h]
  exact completedTodayCount_eq_countP habits d

/-- Witness for C2 (amended) at a concrete list with one completed habit. -/
theorem completedToday_counts_all_habits_witness :
    totalHabits [hDone, hIdle] ≠ 0 ∧
    (statsCalc [hDone, hIdle] 0).completedToday = allCompletedToday [hDone, hIdle] 0 :=
  ⟨by decide, completedToday_counts_all_habits [hDone, hIdle] 0 (by decide)⟩

/-- Counterexample to C2 as stated: with a non-archived habit that has no
logs and an archived habit completed at day 0, the code counts the archived
habit (completedToday = 1), while the count over non-archived habits is 0. -/
theorem completedToday_archived_counted :
    (statsCalc [hIdle, hArchDone] 0).completedToday ≠
      specCompletedToday [hIdle, hArchDone] 0 := by
  decide

/-- Math.round bound: when 0 < t and c ≤ t the rounded percentage is at
most 100. -/
theorem jsRound100_le (c t : Nat) (hc : c ≤ t) (ht : 0 < t) :
    jsRound100 c t ≤ 100 := by
  unfold jsRound100
  have h1 : 200 * c + t ≤ 201 * t := by omega
  calc (200 * c + t) / (2 * t) ≤ (201 * t) / (2 * t) := Nat.div_le_div_right h1
    _ = 100 := Nat.div_eq_of_lt_le (by omega) (by omega)

/-- Claim C5 (amended): for a habit list with no archived habit the
completion rate lies between 0 and 100 (it is a Nat, so 0 is automatic), and
with zero (non-archived) habits all three outputs are 0. Without the
no-archived restriction the bound fails, see the counterexample. -/
theorem completionRate_bounds (habits : List Habit) (d : Int)
    (h : ∀ hb ∈ habits, hb.archived = false) :
    (statsCalc habits d).completionRate ≤ 100 ∧
    (totalHabits habits = 0 →
      statsCalc habits d = { completedToday := 0, completionRate := 0, streak := 0 }) := by
  constructor
  · by_cases h0 : totalHabits habits = 0
    · unfold statsCalc
      rw [if_pos h0]
      simp
    · unfold statsCalc
      rw [if_neg h0]
      apply jsRound100_le
      · rw [completedTodayCount_eq_countP]
        have h1 : totalHabits habits = habits.length := by
          unfold totalHabits
          rw [List.filter_eq_self.mpr]
          intro hb hm
          rw [h hb hm]
          rfl
        rw [h1]
        exact List.countP_le_length _
      · omega
  · intro h0
    unfold statsCalc
    rw [if_pos h0]

/-- Witness for C5 at a concrete list with no archived habits. -/
theorem completionRate_bounds_witness :
    (∀ hb ∈ [hDone, hIdle], hb.archived = false) ∧
    ((statsCalc [hDone, hIdle] 0).completionRate ≤ 100 ∧
     (totalHabits [hDone, hIdle] = 0 →
       statsCalc [hDone, hIdle] 0 =
         { completedToday := 0, completionRate := 0, streak := 0 })) :=
  ⟨by decide, completionRate_bounds [hDone, hIdle] 0 (by decide)⟩

/-- Counterexample to C5 as stated: with a non-archived and an archived
habit both completed at day 0, completedToday = 2 against a denominator of
1, and the completion rate is 200. -/
theorem completionRate_can_exceed_100 :
    100 < (statsCalc [hDone, hArchDone] 0).completionRate := by
  decide

/-! Streak lemmas for claim C3. -/

theorem mem_activityDates_iff (habits : List Habit) (d : Int) :
    d ∈ activityDates habits ↔
    ∃ hb ∈ habits, ∃ p ∈ hb.logs, p.2.completed = true ∧ p.2.date = d := by
  have gen : ∀ (l : List Habit) (acc : List Int),
      (d ∈ l.foldl
        (fun acc h =>
          acc ++ (h.logs.filter (fun p => p.2.completed)).map (fun p => p.2.date))
        acc) ↔
      d ∈ acc ∨ ∃ hb ∈ l, ∃ p ∈ hb.logs, p.2.completed = true ∧ p.2.date = d := by
    intro l
    induction l with
    | nil => intro acc; simp
    | cons a l ih =>
      intro acc
      rw [List.foldl_cons, ih]
      simp only [List.mem_append, List.mem_map, List.mem_filter, List.mem_cons]
      constructor
      · rintro (⟨hd | ⟨p, ⟨hp, hc⟩, hdd⟩⟩ | ⟨hb, hhb, hrest⟩)
        · exact Or.inl hd
        · exact Or.inr ⟨a, Or.inl rfl, p, hp, hc, hdd⟩
        · exact Or.inr ⟨hb, Or.inr hhb, hrest⟩
      · rintro (hd | ⟨hb, hl | hhb, p, hp, hc, hdd⟩)
        · exact Or.inl (Or.inl hd)
        · exact Or.inl (Or.inr ⟨p, ⟨hl ▸ hp, hc⟩, hdd⟩)
        · exact Or.inr ⟨hb, hhb, p, hp, hc, hdd⟩
  simpa [activityDates] using gen habits []

theorem mem_specActivitySet_iff (habits : List Habit) (d : Int) :
    d ∈ specActivitySet habits ↔
    ∃ hb ∈ habits, ∃ p ∈ hb.logs, p.2.completed = true ∧ p.2.date = d := by
  induction habits with
  | nil => simp [specActivitySet]
  | cons a l ih =>
    unfold specActivitySet at ih ⊢
    rw [List.foldr_cons, Finset.mem_union, ih]
    simp only [List.mem_toFinset, List.mem_map, List.mem_filter, List.mem_cons]
    constructor
    · rintro (⟨p, ⟨hp, hc⟩, hdd⟩ | ⟨hb, hhb, hrest⟩)
      · exact ⟨a, Or.inl rfl, p, hp, hc, hdd⟩
      · exact ⟨hb, Or.inr hhb, hrest⟩
    · rintro ⟨hb, hl | hhb, p, hp, hc, hdd⟩
      · exact Or.inl ⟨p, ⟨hl ▸ hp, hc⟩, hdd⟩
      · exact Or.inr ⟨hb, hhb, p, hp, hc, hdd⟩

theorem streakWalk_eq_specWalk (act : List Int) (S : Finset Int)
    (hmem : ∀ x : Int, x ∈ act ↔ x ∈ S) :
    ∀ (f : Nat) (d : Int), streakWalk act f d = specWalk S f d := by
  intro f
  induction f with
  | zero => intro d; rfl
  | succ f ih =>
    intro d
    rw [streakWalk, specWalk]
    by_cases hd : d ∈ S
    · rw [if_pos ((hmem d).mpr hd), if_pos hd, ih]
    · rw [if_neg (fun hh => hd ((hmem d).mp hh)), if_neg hd]

theorem specWalk_le (S : Finset Int) :
    ∀ (f : Nat) (d : Int), specWalk S f d ≤ f := by
  intro f
  induction f with
  | zero => intro d; exact le_refl 0
  | succ f ih =>
    intro d
    rw [specWalk]
    by_cases hd : d ∈ S
    · rw [if_pos hd]
      exact Nat.succ_le_succ (ih (d - 1))
    · rw [if_neg hd]
      exact Nat.zero_le _

theorem specWalk_mem_of_lt (S : Finset Int) :
    ∀ (f : Nat) (d : Int) (i : Nat), i < specWalk S f d → (d - (i : Int)) ∈ S := by
  intro f
  induction f with
  | zero => intro d i h; rw [specWalk] at h; omega
  | succ f ih =>
    intro d i h
    rw [specWalk] at h
    by_cases hd : d ∈ S
    · rw [if_pos hd] at h
      cases i with
      | zero => simpa using hd
      | succ i =>
        have h2 : i < specWalk S f (d - 1) := by omega
        have h3 := ih (d - 1) i h2
        have heq : d - 1 - (i : Int) = d - ((i + 1 : Nat) : Int) := by
          push_cast
          ring
        exact heq ▸ h3
    · rw [if_neg hd] at h
      omega

theorem specWalk_full_le_card (S : Finset Int) (f : Nat) (d : Int)
    (h : specWalk S f d = f) : f ≤ S.card := by
  have hmem : ∀ i ∈ Finset.range f, (d - (i : Int)) ∈ S := by
    intro i hi
    have hif : i < f := Finset.mem_range.mp hi
    exact specWalk_mem_of_lt S f d i (by rw [h]; exact hif)
  have hsub : (Finset.range f).image (fun i : Nat => d - (i : Int)) ⊆ S := by
    intro x hx
    obtain ⟨i, hi, rfl⟩ := Finset.mem_image.mp hx
    exact hmem i hi
  have hinj : Set.InjOn (fun i : Nat => d - (i : Int)) (Finset.range f) := by
    intro i _ j _ hij
    have hij' : d - (i : Int) = d - (j : Int) := hij
    have h2 : (i : Int) = (j : Int) := sub_right_injective hij'
    exact_mod_cast h2
  calc f = (Finset.range f).card := (Finset.card_range f).symm
    _ = ((Finset.range f).image (fun i : Nat => d - (i : Int))).card :=
        (Finset.card_image_of_injOn hinj).symm
    _ ≤ S.card := Finset.card_le_card hsub

theorem specWalk_stable (S : Finset Int) :
    ∀ (f g : Nat) (d : Int), specWalk S f d < f → f ≤ g →
      specWalk S g d = specWalk S f d := by
  intro f
  induction f with
  | zero => intro g d h; omega
  | succ f ih =>
    intro g d h hg
    cases g with
    | zero => omega
    | succ g =>
      rw [specWalk, specWalk]
      by_cases hd : d ∈ S
      · rw [if_pos hd]
        rw [if_pos hd]
        rw [specWalk, if_pos hd] at h
        have h2 : specWalk S f (d - 1) < f := by omega
        rw [ih g (d - 1) h2 (by omega)]
      · rw [if_neg hd, if_neg hd]

theorem specWalk_fuel_ge (S : Finset Int) (f g : Nat) (d : Int)
    (hf : S.card < f) (hg : S.card < g) :
    specWalk S f d = specWalk S g d := by
  have key : ∀ m, S.card < m → specWalk S m d = specWalk S (S.card + 1) d := by
    intro m hm
    have hlt : specWalk S (S.card + 1) d < S.card + 1 := by
      rcases Nat.lt_or_ge (specWalk S (S.card + 1) d) (S.card + 1) with hx | hx
      · exact hx
      · exfalso
        have hx2 : specWalk S (S.card + 1) d = S.card + 1 :=
          le_antisymm (specWalk_le S (S.card + 1) d) hx
        have := specWalk_full_le_card S (S.card + 1) d hx2
        omega
    exact specWalk_stable S (S.card + 1) m d hlt (by omega)
  rw [key f hf, key g hg]

/-- The streak of StatsBanner.tsx equals the walk of the algorithm worded in
spec.md section 4.3, for every habit list (archived habits feed the activity
set on both sides). -/
theorem streakCalc_eq_specStreak (habits : List Habit) (today : Int) :
    streakCalc habits today = specStreak habits today := by
  have hmem : ∀ x : Int, x ∈ activityDates habits ↔ x ∈ specActivitySet habits :=
    fun x => (mem_activityDates_iff habits x).trans
      (mem_specActivitySet_iff habits x).symm
  have hcard : (specActivitySet habits).card ≤ (activityDates habits).length := by
    have hsub : specActivitySet habits ⊆ (activityDates habits).toFinset :=
      fun x hx => List.mem_toFinset.mpr ((hmem x).mpr hx)
    exact le_trans (Finset.card_le_card hsub) (List.toFinset_card_le _)
  have hwalk := streakWalk_eq_specWalk (activityDates habits)
    (specActivitySet habits) hmem
  unfold streakCalc specStreak
  by_cases h1 : today ∈ specActivitySet habits
  · have h1' : today ∈ activityDates habits := (hmem today).mpr h1
    have b1 : decide (today ∈ activityDates habits) = true := decide_eq_true h1'
    rw [if_pos h1]
    simp only [b1, Bool.not_true, Bool.false_and, Bool.false_eq_true, if_false,
      if_true]
    rw [hwalk]
    exact specWalk_fuel_ge _ _ _ _ (by omega) (by omega)
  · have h1' : today ∉ activityDates habits := fun hh => h1 ((hmem today).mp hh)
    have b1 : decide (today ∈ activityDates habits) = false := decide_eq_false h1'
    rw [if_neg h1]
    by_cases h2 : (today - 1) ∈ specActivitySet habits
    · have h2' : (today - 1) ∈ activityDates habits := (hmem _).mpr h2
      have b2 : decide ((today - 1) ∈ activityDates habits) = true :=
        decide_eq_true h2'
      rw [if_pos h2]
      simp only [b1, b2, Bool.not_true, Bool.not_false, Bool.true_and,
        Bool.false_eq_true, if_false, if_true]
      rw [hwalk]
      exact specWalk_fuel_ge _ _ _ _ (by omega) (by omega)
    · have h2' : (today - 1) ∉ activityDates habits := fun hh => h2 ((hmem _).mp hh)
      have b2 : decide ((today - 1) ∈ activityDates habits) = false :=
        decide_eq_false h2'
      rw [if_neg h2]
      simp only [b1, b2, Bool.not_false, Bool.true_and, Bool.false_eq_true,
        if_false, if_true]

/-- Claim C3 (amended): when at least one non-archived habit exists, the
streak output equals the walk algorithm of the claim: cursor at today if
today is in the activity set else yesterday, zero when neither is in it,
otherwise the count of consecutive present days walking backward. With only
archived habits the code returns 0 regardless, see the counterexample. -/
theorem streak_matches_spec_algorithm (habits : List Habit) (today : Int)
    (h : totalHabits habits ≠ 0) :
    (statsCalc habits today).streak = specStreak habits today := by
  unfold statsCalc
  rw [if_neg h]
  exact streakCalc_eq_specStreak habits today

/-- Witness for C3 (amended), with activity on days 4 and 5 and today = 6:
the streak honors the one-day grace period (it equals 2, the run ending at
day 5), and the theorem applies since the habit is not archived. -/
theorem streak_matches_spec_algorithm_witness :
    totalHabits [hTwoDays] ≠ 0 ∧
    ((statsCalc [hTwoDays] 6).streak = specStreak [hTwoDays] 6 ∧
     (statsCalc [hTwoDays] 6).streak = 2) :=
  ⟨by decide,
   streak_matches_spec_algorithm [hTwoDays] 6 (by decide),
   by decide⟩

/-- Counterexample to C3 as stated: a single archived habit completed at
day 0 (today): the claim walk yields 1, the code returns 0 because the
totalHabits = 0 early return precedes the streak computation. -/
theorem streak_zero_for_archived_only :
    (statsCalc [hArchDone] 0).streak ≠ specStreak [hArchDone] 0 := by
  decide

/-! Heatmap windowing lemmas for claim C7. -/

/-- The adjusted start is today - 364 snapped backward, by less than a week,
onto the configured week-start weekday. -/
theorem adjustedStartDate_spec (today : Int) (ws : WeekStart) :
    adjustedStartDate today ws ≤ today - 364 ∧
    today - 364 - adjustedStartDate today ws < 7 ∧
    getDay (adjustedStartDate today ws) = weekStartsOn ws := by
  cases ws <;>
    refine ⟨?_, ?_, ?_⟩ <;>
    (simp only [adjustedStartDate, snapDiff, getDay, weekStartsOn]
     split_ifs) <;>
    omega

theorem heatmapDays_length (today : Int) (ws : WeekStart) :
    (heatmapDays today ws).length = (today - adjustedStartDate today ws + 1).toNat := by
  simp only [heatmapDays, List.length_map, List.length_range]

theorem heatmapDays_head (today : Int) (ws : WeekStart) :
    (heatmapDays today ws).head? = some (adjustedStartDate today ws) := by
  obtain ⟨ha1, ha2, ha3⟩ := adjustedStartDate_spec today ws
  obtain ⟨m, hm⟩ : ∃ m, (today - adjustedStartDate today ws + 1).toNat = m + 1 :=
    ⟨(today - adjustedStartDate today ws + 1).toNat - 1, by omega⟩
  simp only [heatmapDays]
  rw [hm, List.range_succ_eq_map]
  simp

theorem heatmapDays_getLast (today : Int) (ws : WeekStart) :
    (heatmapDays today ws).getLast? = some today := by
  obtain ⟨ha1, ha2, ha3⟩ := adjustedStartDate_spec today ws
  obtain ⟨m, hm⟩ : ∃ m, (today - adjustedStartDate today ws + 1).toNat = m + 1 :=
    ⟨(today - adjustedStartDate today ws + 1).toNat - 1, by omega⟩
  simp only [heatmapDays]
  rw [hm, List.range_succ, List.map_append, List.map_cons, List.map_nil,
    List.getLast?_concat]
  have : adjustedStartDate today ws + (m : Int) = today := by omega
  rw [this]

theorem mem_heatmapDays (today : Int) (ws : WeekStart) (d : Int) :
    d ∈ heatmapDays today ws ↔
    adjustedStartDate today ws ≤ d ∧ d ≤ today := by
  obtain ⟨ha1, ha2, ha3⟩ := adjustedStartDate_spec today ws
  simp only [heatmapDays, List.mem_map, List.mem_range]
  constructor
  · rintro ⟨i, hi, rfl⟩
    omega
  · rintro ⟨h1, h2⟩
    exact ⟨(d - adjustedStartDate today ws).toNat, by omega, by omega⟩

theorem heatmapDays_chain (today : Int) (ws : WeekStart) :
    List.Chain' (fun x y => y = x + 1) (heatmapDays today ws) := by
  rw [List.chain'_iff_get]
  intro i hi
  simp only [heatmapDays, List.length_map, List.length_range] at hi
  simp only [heatmapDays, List.get_eq_getElem, List.getElem_map,
    List.getElem_range]
  omega

/-- The day count is 365 plus the snap distance; it is a multiple of 7
exactly when today is the last day of the configured week. -/
theorem heatmapDays_length_mod (today : Int) (ws : WeekStart) :
    (7 ∣ (heatmapDays today ws).length) ↔ getDay (today + 1) = weekStartsOn ws := by
  rw [heatmapDays_length]
  cases ws <;>
    (simp only [adjustedStartDate, snapDiff, getDay, weekStartsOn]
     split_ifs) <;>
    omega

/-- Invariant of the week-grouping fold of Heatmap.tsx lines 65 to 79: rows
already pushed have exactly 7 days, the current row has fewer than 7, and
the rows plus the current row hold exactly the processed days in order. -/
theorem weeksFold_inv (days : List Int) :
    ∀ (ws : List (List Int)) (cw : List Int),
      (∀ w ∈ ws, w.length = 7) → cw.length < 7 →
      (∀ w ∈ (days.foldl weekStep (ws, cw)).1, w.length = 7) ∧
      (days.foldl weekStep (ws, cw)).2.length < 7 ∧
      ((days.foldl weekStep (ws, cw)).1.flatten ++ (days.foldl weekStep (ws, cw)).2 =
        ws.flatten ++ (cw ++ days)) := by
  induction days with
  | nil =>
    intro ws cw h1 h2
    refine ⟨h1, h2, ?_⟩
    simp
  | cons d ds ih =>
    intro ws cw h1 h2
    rw [List.foldl_cons]
    have hstep : weekStep (ws, cw) d =
        if (cw ++ [d]).length = 7 then (ws ++ [cw ++ [d]], [])
        else (ws, cw ++ [d]) := rfl
    rw [hstep]
    by_cases hlen : (cw ++ [d]).length = 7
    · rw [if_pos hlen]
      have h1' : ∀ w ∈ ws ++ [cw ++ [d]], w.length = 7 := by
        intro w hw
        rcases List.mem_append.mp hw with hx | hx
        · exact h1 w hx
        · rw [List.mem_singleton.mp hx]
          exact hlen
      have := ih (ws ++ [cw ++ [d]]) [] h1' (by simp)
      refine ⟨this.1, this.2.1, ?_⟩
      rw [this.2.2]
      simp [List.flatten_append]
    · rw [if_neg hlen]
      have hlt : (cw ++ [d]).length < 7 := by
        simp only [List.length_append, List.length_singleton] at hlen ⊢
        omega
      have := ih ws (cw ++ [d]) h1 hlt
      refine ⟨this.1, this.2.1, ?_⟩
      rw [this.2.2]
      simp

/-- The rows of the week grouping concatenate back to the day list. -/
theorem weeksFold_flatten (days : List Int) :
    (weeksFold days).flatten = days := by
  have h := weeksFold_inv days [] [] (by simp) (by simp)
  unfold weeksFold
  by_cases he : (days.foldl weekStep ([], [])).2.isEmpty
  · rw [if_pos he]
    have h2 : (days.foldl weekStep ([], [])).2 = [] := List.isEmpty_iff.mp he
    have := h.2.2
    rw [h2] at this
    simpa using this
  · rw [if_neg he]
    have := h.2.2
    simpa [List.flatten_append] using this

/-- Every row of the week grouping is nonempty with at most 7 days. -/
theorem weeksFold_row_bounds (days : List Int) :
    ∀ w ∈ weeksFold days, w.length ≤ 7 ∧ w ≠ [] := by
  have h := weeksFold_inv days [] [] (by simp) (by simp)
  intro w hw
  unfold weeksFold at hw
  by_cases he : (days.foldl weekStep ([], [])).2.isEmpty
  · rw [if_pos he] at hw
    have := h.1 w hw
    constructor
    · omega
    · intro hnil
      rw [hnil] at this
      simp at this
  · rw [if_neg he] at hw
    rcases List.mem_append.mp hw with hx | hx
    · have := h.1 w hx
      constructor
      · omega
      · intro hnil
        rw [hnil] at this
        simp at this
    · rw [List.mem_singleton.mp hx]
      constructor
      · omega
      · intro hnil
        rw [hnil] at he
        simp at he

/-- All rows except possibly the last have exactly 7 days. -/
theorem weeksFold_dropLast_full (days : List Int) :
    ∀ w ∈ (weeksFold days).dropLast, w.length = 7 := by
  have h := weeksFold_inv days [] [] (by simp) (by simp)
  intro w hw
  unfold weeksFold at hw
  by_cases he : (days.foldl weekStep ([], [])).2.isEmpty
  · rw [if_pos he] at hw
    exact h.1 w (List.dropLast_sublist _ |>.subset hw)
  · rw [if_neg he, List.dropLast_concat] at hw
    exact h.1 w hw

/-- Claim C7 (amended): the heatmap day sequence runs from today - 364
snapped backward (by less than a week) to the configured week-start weekday,
up to today inclusive, containing exactly the days of that closed interval
consecutively in calendar order; its length is a multiple of 7 exactly when
today is the last day of the configured week (so the final row of the
rows-of-7 partition is in general partial, every earlier row being full). -/
theorem heatmap_window_spec (today : Int) (ws : WeekStart) :
    (adjustedStartDate today ws ≤ today - 364 ∧
     today - 364 - adjustedStartDate today ws < 7 ∧
     getDay (adjustedStartDate today ws) = weekStartsOn ws) ∧
    (heatmapDays today ws).head? = some (adjustedStartDate today ws) ∧
    (heatmapDays today ws).getLast? = some today ∧
    (∀ d : Int, d ∈ heatmapDays today ws ↔
      adjustedStartDate today ws ≤ d ∧ d ≤ today) ∧
    List.Chain' (fun x y => y = x + 1) (heatmapDays today ws) ∧
    ((7 ∣ (heatmapDays today ws).length) ↔ getDay (today + 1) = weekStartsOn ws) ∧
    (weeksFold (heatmapDays today ws)).flatten = heatmapDays today ws ∧
    (∀ w ∈ weeksFold (heatmapDays today ws), w.length ≤ 7 ∧ w ≠ []) ∧
    (∀ w ∈ (weeksFold (heatmapDays today ws)).dropLast, w.length = 7) :=
  ⟨adjustedStartDate_spec today ws,
   heatmapDays_head today ws,
   heatmapDays_getLast today ws,
   mem_heatmapDays today ws,
   heatmapDays_chain today ws,
   heatmapDays_length_mod today ws,
   weeksFold_flatten _,
   weeksFold_row_bounds _,
   weeksFold_dropLast_full _⟩

/-- Counterexample to C7 as stated: with today a Wednesday (day 3; day 0 is
a Sunday) and weekStart sunday, the window holds 368 days, not a multiple
of 7, so the rows-of-7 partition ends in a partial row. -/
theorem heatmap_total_not_multiple_of_7 :
    ¬ (7 ∣ (heatmapDays 3 WeekStart.sunday).length) := by
  have h : (heatmapDays 3 WeekStart.sunday).length = 368 := by
    simp only [heatmapDays, List.length_map, List.length_range]
    decide
  rw [h]
  decide

/-! Claims C1, C4 and C8. -/

/-- Claim C1 fails on the code: running toggleToday on a habit whose entry
at today is completed and carries a note writes completed = false through
the DailyLog reference shared with the previous state. Dereferencing the
UNCHANGED prior habit value after the call observes the mutation: its day-0
log changed from completed = true to completed = false in place. -/
theorem toggleToday_mutates_prior_state :
    viewHabit (toggleTodayRef c1Heap [c1Habit] "a" 0 7).1 c1Habit ≠
      viewHabit c1Heap c1Habit ∧
    (toggleTodayRef c1Heap [c1Habit] "a" 0 7).1 =
      [{ date := 0, completed := false, note := some "x" }] := by
  constructor
  · decide
  · decide

/-- Claim C4 (amended): when the underlying store write throws, the updater
returns the current value, so the in-memory value is left at its previous
value (the update is discarded, not merely less durable); on success both
the cell and the in-memory value hold the new value. -/
theorem setValue_spec (cell : Option AppData) (current valueToStore : AppData) :
    setValue cell current valueToStore false = (cell, current) ∧
    setValue cell current valueToStore true = (some valueToStore, valueToStore) :=
  ⟨rfl, rfl⟩

/-- Counterexample to C4 as stated: with a failing write, the in-memory
value stays at the current value instead of the written one (which the
spec-modelled adapter would return). -/
theorem setValue_failure_keeps_current :
    (setValue none (dataOf [hIdle]) (dataOf [hDone]) false).2 = dataOf [hIdle] ∧
    (specSetValue none (dataOf [hIdle]) (dataOf [hDone]) false).2 = dataOf [hDone] ∧
    dataOf [hIdle] ≠ dataOf [hDone] :=
  ⟨rfl, rfl, by decide⟩

/-- Claim C8 (amended): for nonempty content, the import replaces the whole
AppData exactly when the content parses as JSON to a truthy value whose
habits property is an array, and reports an error status exactly when it
does not; empty content is skipped by the result-truthiness guard, with
neither an import nor any status change. -/
theorem import_characterization (content : String) :
    (∀ v : Js, (handleImportFile content).1 = some v ↔
      (content ≠ "" ∧ jsonParse content = some v ∧
        (jsTruthy v && habitsIsArray v) = true)) ∧
    ((handleImportFile content).2 = ImportStatus.error ↔
      (content ≠ "" ∧ ∀ v : Js, jsonParse content = some v →
        (jsTruthy v && habitsIsArray v) = false)) := by
  unfold handleImportFile
  by_cases hc : content = ""
  · rw [if_pos hc]
    constructor
    · intro v
      simp [hc]
    · simp [hc]
  · rw [if_neg hc]
    cases hp : jsonParse content with
    | none =>
      constructor
      · intro v
        simp [hc, hp]
      · simp [hc, hp]
    | some v0 =>
      simp only []
      by_cases hv : (jsTruthy v0 && habitsIsArray v0) = true
      · rw [if_pos hv]
        constructor
        · intro v
          constructor
          · intro h
            have hveq : v0 = v := Option.some.inj h
            subst hveq
            exact ⟨hc, rfl, hv⟩
          · rintro ⟨-, hpv, -⟩
            have hveq : v0 = v := Option.some.inj hpv
            subst hveq
            rfl
        · constructor
          · intro h
            exact absurd h (by simp)
          · rintro ⟨-, hall⟩
            have := hall v0 rfl
            rw [hv] at this
            exact absurd this (by simp)
      · rw [if_neg hv]
        have hv' : (jsTruthy v0 && habitsIsArray v0) = false :=
          Bool.not_eq_true _ |>.mp hv
        constructor
        · intro v
          constructor
          · intro h
            exact absurd h (by simp)
          · rintro ⟨-, hpv, hvv⟩
            have hveq : v0 = v := Option.some.inj hpv
            subst hveq
            rw [hv'] at hvv
            exact absurd hvv (by simp)
        · constructor
          · intro _
            refine ⟨hc, ?_⟩
            intro v hpv
            have hveq : v0 = v := Option.some.inj hpv
            subst hveq
            exact hv'
          · intro _
            rfl

/-- Counterexample to C8 as stated: the empty file content does not parse
as JSON (JSON.parse throws on it), yet the handler reports no error status:
it leaves the status idle because the truthiness guard on the loaded result
skips everything. The prior AppData is retained. -/
theorem import_empty_content_silent :
    jsonParse "" = none ∧
    handleImportFile "" = (none, ImportStatus.idle) ∧
    ImportStatus.idle ≠ ImportStatus.error :=
  ⟨rfl, rfl, by decide⟩

end HabitPulse
